import Mathlib

set_option maxHeartbeats 1000000

/-!
Verification of the `planilha-de-prazos-geral` repository.

Python strings are modeled as `List Char`; Python `None` as `Option.none`;
machine dates/timestamps as integers (day numbers resp. seconds); database
tables as lists of rows.  Each definition is a shallow embedding of the
Python function of the same name.
-/

/-- Python `str.lower` on a single character: ASCII letters plus the accented
Latin letters that occur in this codebase's data. -/
def pyToLower (c : Char) : Char :=
  match c with
  | 'Á' => 'á' | 'À' => 'à' | 'Â' => 'â' | 'Ã' => 'ã'
  | 'É' => 'é' | 'Ê' => 'ê' | 'Í' => 'í'
  | 'Ó' => 'ó' | 'Ô' => 'ô' | 'Õ' => 'õ'
  | 'Ú' => 'ú' | 'Ü' => 'ü' | 'Ç' => 'ç'
  | _ => if 'A' ≤ c ∧ c ≤ 'Z' then Char.ofNat (c.toNat + 32) else c

/-- Accent table: maps an accented Latin letter to its base letter (the NFKD
decomposition drops the combining mark when encoding to ASCII). -/
def stripAccentChar (c : Char) : Option Char :=
  match c with
  | 'á' => some 'a' | 'à' => some 'a' | 'â' => some 'a' | 'ã' => some 'a'
  | 'é' => some 'e' | 'ê' => some 'e' | 'í' => some 'i'
  | 'ó' => some 'o' | 'ô' => some 'o' | 'õ' => some 'o'
  | 'ú' => some 'u' | 'ü' => some 'u' | 'ç' => some 'c'
  | 'Á' => some 'A' | 'À' => some 'A' | 'Â' => some 'A' | 'Ã' => some 'A'
  | 'É' => some 'E' | 'Ê' => some 'E' | 'Í' => some 'I'
  | 'Ó' => some 'O' | 'Ô' => some 'O' | 'Õ' => some 'O'
  | 'Ú' => some 'U' | 'Ü' => some 'U' | 'Ç' => some 'C'
  | _ => none

/-- One character of `unicodedata.normalize("NFKD", s).encode("ASCII", "ignore")`:
ASCII characters pass through, accented Latin letters decompose to their base
letter, remaining non-ASCII characters are dropped. -/
def normalizarChar (c : Char) : List Char :=
  if c.toNat < 128 then [c]
  else
    match stripAccentChar c with
    | some b => [b]
    | none => []

/-- Concat-map over a character list. -/
def expandMap (f : Char → List Char) : List Char → List Char
  | [] => []
  | c :: rest => f c ++ expandMap f rest

/-- Embeds `normalizar` of `scrap_email.py`: NFKD-decompose, drop non-ASCII,
lower-case. -/
def normalizar (s : List Char) : List Char :=
  (expandMap normalizarChar s).map pyToLower

/-- Position of the first occurrence of `pat` in `hay` (Python `str.find`,
with `none` standing for `-1`). -/
def findSub (hay pat : List Char) : Option Nat :=
  match hay with
  | [] => if pat.isEmpty then some 0 else none
  | c :: rest =>
      if pat.isPrefixOf (c :: rest) then some 0
      else (findSub rest pat).map (· + 1)

/-- Python `pat in hay` substring test. -/
def containsSub (hay pat : List Char) : Bool :=
  (findSub hay pat).isSome

/-- Keyword list `PALAVRAS_CHAVE` of `scrap_email.py`. -/
def PALAVRAS_CHAVE : List (List Char) :=
  ["rpv".toList, "alvará".toList, "alvara".toList, "precatório".toList,
   "precatorio".toList, "acordo homologado".toList, "expedição de rpv".toList,
   "expedicao de rpv".toList, "expedido".toList, "pagamento".toList]

/-- Embeds `checar_palavra_chave` of `scrap_email.py`: lower-cases
`(corpo or "")` and returns the financial queue when any keyword occurs as a
substring, else the default queue. -/
def checar_palavra_chave (corpo : Option (List Char)) : List Char :=
  let corpo_lower := (corpo.getD []).map pyToLower
  match PALAVRAS_CHAVE.find? (fun palavra => containsSub corpo_lower palavra) with
  | some _ => "Setor Financeiro".toList
  | none => "Taina".toList

/-- C9: sector classification is total on arbitrary text including `None`
and the empty string: a case-insensitive keyword hit (for instance "alvará")
routes to "Setor Financeiro", no hit routes to the default queue "Taina",
and no other outcome exists. -/
theorem checar_palavra_chave_total (corpo : Option (List Char)) :
    (checar_palavra_chave corpo = "Setor Financeiro".toList ∨
      checar_palavra_chave corpo = "Taina".toList) ∧
    ((∃ p ∈ PALAVRAS_CHAVE,
        containsSub ((corpo.getD []).map pyToLower) p = true) →
      checar_palavra_chave corpo = "Setor Financeiro".toList) ∧
    ((∀ p ∈ PALAVRAS_CHAVE,
        containsSub ((corpo.getD []).map pyToLower) p = false) →
      checar_palavra_chave corpo = "Taina".toList) ∧
    (containsSub ((corpo.getD []).map pyToLower) ("alvará".toList) = true →
      checar_palavra_chave corpo = "Setor Financeiro".toList) := by
  rcases hfind : PALAVRAS_CHAVE.find?
      (fun palavra => containsSub ((corpo.getD []).map pyToLower) palavra) with _ | p
  · have hnone := List.find?_eq_none.mp hfind
    simp only [checar_palavra_chave, hfind]
    refine ⟨Or.inr trivial, ?_, fun _ => trivial, ?_⟩
    · rintro ⟨q, hq, hc⟩
      exact absurd hc (by simpa using hnone q hq)
    · intro hc
      have hmem : "alvará".toList ∈ PALAVRAS_CHAVE := by decide
      exact absurd hc (by simpa using hnone _ hmem)
  · have hm := List.mem_of_find?_eq_some hfind
    have hp : containsSub ((corpo.getD []).map pyToLower) p = true := by
      simpa using List.find?_some hfind
    simp only [checar_palavra_chave, hfind]
    refine ⟨Or.inl trivial, fun _ => trivial, ?_, fun _ => trivial⟩
    intro hall
    simp [hall p hm] at hp

/-- Witness for C9 at a concrete input containing "ALVARÁ". -/
theorem checar_palavra_chave_total_witness :
    checar_palavra_chave (some ("Segue o ALVARÁ para pagamento".toList)) =
      "Setor Financeiro".toList :=
  (checar_palavra_chave_total (some ("Segue o ALVARÁ para pagamento".toList))).2.2.2
    (by decide)

/-- Correctness of the substring test: `findSub` succeeds exactly when the
pattern is an infix of the haystack. -/
theorem findSub_isSome_iff (hay pat : List Char) :
    (findSub hay pat).isSome = true ↔ pat <:+: hay := by
  induction hay with
  | nil =>
      cases pat <;> simp [findSub]
  | cons c rest ih =>
      by_cases hp : pat.isPrefixOf (c :: rest)
      · simp only [findSub, hp, if_pos, Option.isSome_some, true_iff]
        exact (List.isPrefixOf_iff_prefix.mp hp).isInfix
      · simp only [findSub, hp, if_neg, Bool.false_eq_true, not_false_iff,
          Option.isSome_map']
        rw [List.infix_cons_iff, ih]
        have : ¬ pat <+: (c :: rest) := fun h =>
          hp (List.isPrefixOf_iff_prefix.mpr h)
        tauto

/-- Python `pat in hay` agrees with list-infix. -/
theorem containsSub_iff (hay pat : List Char) :
    containsSub hay pat = true ↔ pat <:+: hay :=
  findSub_isSome_iff hay pat

/-- Embeds `detectar_audiencia_pericia` of `scrap_email.py`: normalizes the
text and tests membership of "audiencia" first, then "pericia". -/
def detectar_audiencia_pericia (texto : List Char) : Option (List Char) :=
  let tl := normalizar texto
  if containsSub tl ("audiencia".toList) then some ("audiencia".toList)
  else if containsSub tl ("pericia".toList) then some ("pericia".toList)
  else none

/-- C4 counterexample: in a text where "pericia" occurs strictly before
"audiencia" (positions 2 resp. 27 of the normalized text), the detector still
returns "audiencia", so the first-match-by-position reading of the claim is
false on the code. -/
theorem detectar_audiencia_pericia_counterexample :
    detectar_audiencia_pericia
        ("A pericia foi remarcada; a audiencia segue confirmada".toList) =
      some ("audiencia".toList) ∧
    findSub (normalizar
        ("A pericia foi remarcada; a audiencia segue confirmada".toList))
        ("pericia".toList) = some 2 ∧
    findSub (normalizar
        ("A pericia foi remarcada; a audiencia segue confirmada".toList))
        ("audiencia".toList) = some 27 ∧
    (2 : Nat) < 27 := by
  refine ⟨by decide, by decide, by decide, by decide⟩

/-- C4 amended: hearing/exam detection returns no event when neither
"audiencia" nor "pericia" occurs in the accent-stripped lower-cased text;
it returns the hearing kind whenever "audiencia" occurs (regardless of the
position of "pericia"); and it returns the exam kind when "pericia" occurs
and "audiencia" does not. -/
theorem detectar_audiencia_pericia_priority (texto : List Char) :
    (¬ ("audiencia".toList <:+: normalizar texto) →
     ¬ ("pericia".toList <:+: normalizar texto) →
       detectar_audiencia_pericia texto = none) ∧
    (("audiencia".toList <:+: normalizar texto) →
       detectar_audiencia_pericia texto = some ("audiencia".toList)) ∧
    (¬ ("audiencia".toList <:+: normalizar texto) →
     ("pericia".toList <:+: normalizar texto) →
       detectar_audiencia_pericia texto = some ("pericia".toList)) := by
  refine ⟨fun h1 h2 => ?_, fun h1 => ?_, fun h1 h2 => ?_⟩ <;>
    simp only [detectar_audiencia_pericia]
  · rw [if_neg, if_neg]
    · intro hc; exact h2 ((containsSub_iff _ _).mp hc)
    · intro hc; exact h1 ((containsSub_iff _ _).mp hc)
  · rw [if_pos ((containsSub_iff _ _).mpr h1)]
  · rw [if_neg, if_pos ((containsSub_iff _ _).mpr h2)]
    intro hc; exact h1 ((containsSub_iff _ _).mp hc)

/-- Witness for C4 amended: a text with an accented "AUDIÊNCIA" and a later
"perícia" is detected as a hearing; a text with only "perícia" is detected
as an exam; a neutral text yields no event. -/
theorem detectar_audiencia_pericia_priority_witness :
    detectar_audiencia_pericia ("AUDIÊNCIA una e perícia médica".toList) =
      some ("audiencia".toList) ∧
    detectar_audiencia_pericia ("Perícia designada".toList) =
      some ("pericia".toList) ∧
    detectar_audiencia_pericia ("despacho ordinatório".toList) = none := by
  refine ⟨(detectar_audiencia_pericia_priority _).2.1 (by decide),
    (detectar_audiencia_pericia_priority _).2.2 (by decide) (by decide),
    (detectar_audiencia_pericia_priority _).1 (by decide) (by decide)⟩

/-- Slice `s[i : i+k]` of a character list. -/
def seg (l : List Char) (i k : Nat) : List Char := (l.drop i).take k

/-- Python `str.isdigit`: nonempty and all characters are digits. -/
def pyIsDigitStr (l : List Char) : Bool := !l.isEmpty && l.all (fun c => c.isDigit)

/-- Character test at a position (false when out of range). -/
def sepAt (w : List Char) (i : Nat) (c : Char) : Bool :=
  match w[i]? with
  | some d => d == c
  | none => false

/-- The CNJ process-number shape `NNNNNNN-NN.NNNN.N.NN.NNNN`: length 25 with
digit groups of sizes 7, 2, 4, 1, 2, 4 separated by a hyphen and four dots. -/
def isCNJ (w : List Char) : Bool :=
  (w.length == 25) && pyIsDigitStr (seg w 0 7) && sepAt w 7 '-' &&
  pyIsDigitStr (seg w 8 2) && sepAt w 10 '.' && pyIsDigitStr (seg w 11 4) &&
  sepAt w 15 '.' && pyIsDigitStr (seg w 16 1) && sepAt w 17 '.' &&
  pyIsDigitStr (seg w 18 2) && sepAt w 20 '.' && pyIsDigitStr (seg w 21 4)

/-- Embeds the inner helper `take_digits` of
`extrair_numero_processo_do_corpo` in `scrap_email.py`: consumes `k` digits
or fails. -/
def take_digits (k : Nat) (l : List Char) : Option (List Char × List Char) :=
  if k ≤ l.length ∧ pyIsDigitStr (l.take k) = true then some (l.take k, l.drop k)
  else none

/-- Embeds the separator checks of `match_proc` in `scrap_email.py`: the next
character must be `c` and is consumed. -/
def expectSep (c : Char) (l : List Char) : Option (List Char) :=
  match l with
  | [] => none
  | d :: rest => if d = c then some rest else none

/-- Embeds the inner `match_proc` of `extrair_numero_processo_do_corpo` in
`scrap_email.py`: matches the CNJ pattern at the head of `l` and returns the
formatted group concatenation. -/
def match_proc (l : List Char) : Option (List Char) :=
  (take_digits 7 l).bind fun p1 =>
  (expectSep '-' p1.2).bind fun r2 =>
  (take_digits 2 r2).bind fun p2 =>
  (expectSep '.' p2.2).bind fun r4 =>
  (take_digits 4 r4).bind fun p3 =>
  (expectSep '.' p3.2).bind fun r6 =>
  (take_digits 1 r6).bind fun p4 =>
  (expectSep '.' p4.2).bind fun r8 =>
  (take_digits 2 r8).bind fun p5 =>
  (expectSep '.' p5.2).bind fun r10 =>
  (take_digits 4 r10).map fun p6 =>
  p1.1 ++ '-' :: (p2.1 ++ '.' :: (p3.1 ++ '.' :: (p4.1 ++ '.' :: (p5.1 ++ '.' :: p6.1))))

/-- Embeds the scanning loop `while i < n - 24` of
`extrair_numero_processo_do_corpo`: tries `match_proc` at each position whose
suffix still holds 25 characters, first success wins. -/
def scanProc : List Char → List Char
  | [] => []
  | c :: rest =>
      if 25 ≤ (c :: rest).length then
        match (if c.isDigit then match_proc (c :: rest) else none) with
        | some got => got
        | none => scanProc rest
      else []

/-- Embeds `extrair_numero_processo_do_corpo` of `scrap_email.py`. -/
def extrair_numero_processo_do_corpo (texto : List Char) : List Char :=
  if texto.isEmpty then [] else scanProc texto

theorem take_digits_eq_some {k : Nat} {l : List Char} {p : List Char × List Char}
    (h : take_digits k l = some p) :
    k ≤ l.length ∧ pyIsDigitStr (l.take k) = true ∧ p = (l.take k, l.drop k) := by
  unfold take_digits at h
  split at h
  · rename_i hc
    exact ⟨hc.1, hc.2, (Option.some.injEq _ _ ▸ h).symm⟩
  · cases h

theorem take_digits_of {k : Nat} {l : List Char}
    (hk : k ≤ l.length) (hd : pyIsDigitStr (l.take k) = true) :
    take_digits k l = some (l.take k, l.drop k) := by
  unfold take_digits
  rw [if_pos ⟨hk, hd⟩]

theorem expectSep_eq_some {c : Char} {l r : List Char}
    (h : expectSep c l = some r) : l = c :: r := by
  cases l with
  | nil => cases h
  | cons d rest =>
      by_cases hd : d = c
      · subst hd
        simp [expectSep] at h
        rw [h]
      · simp [expectSep, hd] at h

theorem expectSep_of {c : Char} {r : List Char} : expectSep c (c :: r) = some r := by
  simp [expectSep]

theorem seg_take25 (l : List Char) (i k : Nat) (h : i + k ≤ 25) :
    seg (l.take 25) i k = (l.drop i).take k := by
  simp only [seg, List.drop_take, List.take_take]
  congr 1
  omega

theorem sepAt_take25 (l : List Char) (i : Nat) (c : Char) (h : i < 25) :
    sepAt (l.take 25) i c = sepAt l i c := by
  unfold sepAt
  rw [List.getElem?_take_of_lt h]

theorem sepAt_true_getElem {l : List Char} {i : Nat} {c : Char}
    (h : sepAt l i c = true) : l[i]? = some c := by
  unfold sepAt at h
  cases hw : l[i]? with
  | none => rw [hw] at h; cases h
  | some d =>
      rw [hw] at h
      simp only [beq_iff_eq] at h
      rw [h]

theorem getElem_sepAt {l : List Char} {i : Nat} {c : Char}
    (h : l[i]? = some c) : sepAt l i c = true := by
  unfold sepAt
  rw [h]
  simp

theorem drop_cons_of_getElem {l : List Char} {c : Char} {n : Nat}
    (hlt : n < l.length) (hs : l[n]? = some c) :
    l.drop n = c :: l.drop (n + 1) := by
  have hc : l[n] = c := by
    have h := List.getElem?_eq_getElem hlt
    rw [hs] at h
    exact (Option.some_inj.mp h).symm
  rw [List.drop_eq_getElem_cons hlt, hc]

theorem take25_decomp {l : List Char}
    (e7 : l.drop 7 = '-' :: l.drop 8) (e10 : l.drop 10 = '.' :: l.drop 11)
    (e15 : l.drop 15 = '.' :: l.drop 16) (e17 : l.drop 17 = '.' :: l.drop 18)
    (e20 : l.drop 20 = '.' :: l.drop 21) :
    l.take 25 = l.take 7 ++ '-' :: ((l.drop 8).take 2 ++ '.' ::
      ((l.drop 11).take 4 ++ '.' :: ((l.drop 16).take 1 ++ '.' ::
      ((l.drop 18).take 2 ++ '.' :: (l.drop 21).take 4)))) := by
  have s1 : l.take 25 = l.take 7 ++ (l.drop 7).take 18 := by
    have h := List.take_add l 7 18
    norm_num at h
    exact h
  rw [s1, e7]
  have s2 : ('-' :: l.drop 8).take 18 = '-' :: (l.drop 8).take 17 := rfl
  rw [s2]
  have s3 : (l.drop 8).take 17 = (l.drop 8).take 2 ++ (l.drop 10).take 15 := by
    have h := List.take_add (l.drop 8) 2 15
    norm_num at h
    exact h
  rw [s3, e10]
  have s5 : ('.' :: l.drop 11).take 15 = '.' :: (l.drop 11).take 14 := rfl
  rw [s5]
  have s6 : (l.drop 11).take 14 = (l.drop 11).take 4 ++ (l.drop 15).take 10 := by
    have h := List.take_add (l.drop 11) 4 10
    norm_num at h
    exact h
  rw [s6, e15]
  have s8 : ('.' :: l.drop 16).take 10 = '.' :: (l.drop 16).take 9 := rfl
  rw [s8]
  have s9 : (l.drop 16).take 9 = (l.drop 16).take 1 ++ (l.drop 17).take 8 := by
    have h := List.take_add (l.drop 16) 1 8
    norm_num at h
    exact h
  rw [s9, e17]
  have s11 : ('.' :: l.drop 18).take 8 = '.' :: (l.drop 18).take 7 := rfl
  rw [s11]
  have s12 : (l.drop 18).take 7 = (l.drop 18).take 2 ++ (l.drop 20).take 5 := by
    have h := List.take_add (l.drop 18) 2 5
    norm_num at h
    exact h
  rw [s12, e20]
  have s14 : ('.' :: l.drop 21).take 5 = '.' :: (l.drop 21).take 4 := rfl
  rw [s14]

theorem match_proc_eq_some {l got : List Char} (h : match_proc l = some got) :
    25 ≤ l.length ∧ isCNJ (l.take 25) = true ∧ got = l.take 25 := by
  simp only [match_proc, Option.bind_eq_some, Option.map_eq_some'] at h
  obtain ⟨p1, h1, r2, h2, p2, h3, r4, h4, p3, h5, r6, h6, p4, h7, r8, h8,
    p5, h9, r10, h10, p6, h11, hgot⟩ := h
  obtain ⟨hk1, hd1, hp1⟩ := take_digits_eq_some h1
  have hp11 : p1.1 = l.take 7 := by rw [hp1]
  have hp12 : p1.2 = l.drop 7 := by rw [hp1]
  rw [hp12] at h2
  have e7 : l.drop 7 = '-' :: r2 := expectSep_eq_some h2
  have hr2 : r2 = l.drop 8 := by
    have hh := congrArg List.tail e7
    simp only [List.tail_drop, List.tail_cons] at hh
    norm_num at hh
    exact hh.symm
  subst hr2
  obtain ⟨hk2, hd2, hp2⟩ := take_digits_eq_some h3
  have hp21 : p2.1 = (l.drop 8).take 2 := by rw [hp2]
  have hp22 : p2.2 = l.drop 10 := by rw [hp2]; simp
  rw [hp22] at h4
  have e10 : l.drop 10 = '.' :: r4 := expectSep_eq_some h4
  have hr4 : r4 = l.drop 11 := by
    have hh := congrArg List.tail e10
    simp only [List.tail_drop, List.tail_cons] at hh
    norm_num at hh
    exact hh.symm
  subst hr4
  obtain ⟨hk3, hd3, hp3⟩ := take_digits_eq_some h5
  have hp31 : p3.1 = (l.drop 11).take 4 := by rw [hp3]
  have hp32 : p3.2 = l.drop 15 := by rw [hp3]; simp
  rw [hp32] at h6
  have e15 : l.drop 15 = '.' :: r6 := expectSep_eq_some h6
  have hr6 : r6 = l.drop 16 := by
    have hh := congrArg List.tail e15
    simp only [List.tail_drop, List.tail_cons] at hh
    norm_num at hh
    exact hh.symm
  subst hr6
  obtain ⟨hk4, hd4, hp4⟩ := take_digits_eq_some h7
  have hp41 : p4.1 = (l.drop 16).take 1 := by rw [hp4]
  have hp42 : p4.2 = l.drop 17 := by rw [hp4]; simp
  rw [hp42] at h8
  have e17 : l.drop 17 = '.' :: r8 := expectSep_eq_some h8
  have hr8 : r8 = l.drop 18 := by
    have hh := congrArg List.tail e17
    simp only [List.tail_drop, List.tail_cons] at hh
    norm_num at hh
    exact hh.symm
  subst hr8
  obtain ⟨hk5, hd5, hp5⟩ := take_digits_eq_some h9
  have hp51 : p5.1 = (l.drop 18).take 2 := by rw [hp5]
  have hp52 : p5.2 = l.drop 20 := by rw [hp5]; simp
  rw [hp52] at h10
  have e20 : l.drop 20 = '.' :: r10 := expectSep_eq_some h10
  have hr10 : r10 = l.drop 21 := by
    have hh := congrArg List.tail e20
    simp only [List.tail_drop, List.tail_cons] at hh
    norm_num at hh
    exact hh.symm
  subst hr10
  obtain ⟨hk6, hd6, hp6⟩ := take_digits_eq_some h11
  have hp61 : p6.1 = (l.drop 21).take 4 := by rw [hp6]
  have hlen : 25 ≤ l.length := by
    simp only [List.length_drop] at hk6
    omega
  have s7f : l[7]? = some '-' := by
    have hh := congrArg (fun t : List Char => t[0]?) e7
    simp only [List.getElem?_drop] at hh
    simpa using hh
  have s10f : l[10]? = some '.' := by
    have hh := congrArg (fun t : List Char => t[0]?) e10
    simp only [List.getElem?_drop] at hh
    simpa using hh
  have s15f : l[15]? = some '.' := by
    have hh := congrArg (fun t : List Char => t[0]?) e15
    simp only [List.getElem?_drop] at hh
    simpa using hh
  have s17f : l[17]? = some '.' := by
    have hh := congrArg (fun t : List Char => t[0]?) e17
    simp only [List.getElem?_drop] at hh
    simpa using hh
  have s20f : l[20]? = some '.' := by
    have hh := congrArg (fun t : List Char => t[0]?) e20
    simp only [List.getElem?_drop] at hh
    simpa using hh
  refine ⟨hlen, ?_, ?_⟩
  · have comp0 : ((l.take 25).length == 25) = true := by
      simp [List.length_take]
      omega
    have comp1 : pyIsDigitStr (seg (l.take 25) 0 7) = true := by
      rw [seg_take25 l 0 7 (by norm_num)]
      simpa using hd1
    have comp2 : sepAt (l.take 25) 7 '-' = true := by
      rw [sepAt_take25 l 7 '-' (by norm_num)]
      exact getElem_sepAt s7f
    have comp3 : pyIsDigitStr (seg (l.take 25) 8 2) = true := by
      rw [seg_take25 l 8 2 (by norm_num)]
      exact hd2
    have comp4 : sepAt (l.take 25) 10 '.' = true := by
      rw [sepAt_take25 l 10 '.' (by norm_num)]
      exact getElem_sepAt s10f
    have comp5 : pyIsDigitStr (seg (l.take 25) 11 4) = true := by
      rw [seg_take25 l 11 4 (by norm_num)]
      exact hd3
    have comp6 : sepAt (l.take 25) 15 '.' = true := by
      rw [sepAt_take25 l 15 '.' (by norm_num)]
      exact getElem_sepAt s15f
    have comp7 : pyIsDigitStr (seg (l.take 25) 16 1) = true := by
      rw [seg_take25 l 16 1 (by norm_num)]
      exact hd4
    have comp8 : sepAt (l.take 25) 17 '.' = true := by
      rw [sepAt_take25 l 17 '.' (by norm_num)]
      exact getElem_sepAt s17f
    have comp9 : pyIsDigitStr (seg (l.take 25) 18 2) = true := by
      rw [seg_take25 l 18 2 (by norm_num)]
      exact hd5
    have comp10 : sepAt (l.take 25) 20 '.' = true := by
      rw [sepAt_take25 l 20 '.' (by norm_num)]
      exact getElem_sepAt s20f
    have comp11 : pyIsDigitStr (seg (l.take 25) 21 4) = true := by
      rw [seg_take25 l 21 4 (by norm_num)]
      exact hd6
    simp only [isCNJ, comp0, comp1, comp2, comp3, comp4, comp5, comp6, comp7,
      comp8, comp9, comp10, comp11, Bool.and_self]
  · rw [hp11, hp21, hp31, hp41, hp51, hp61] at hgot
    rw [← hgot, take25_decomp e7 e10 e15 e17 e20]

theorem isCNJ_length {w : List Char} (h : isCNJ w = true) : w.length = 25 := by
  simp only [isCNJ, Bool.and_eq_true, beq_iff_eq] at h
  tauto

theorem match_proc_of_isCNJ {l : List Char} (h : isCNJ (l.take 25) = true) :
    match_proc l = some (l.take 25) := by
  have hlen : 25 ≤ l.length := by
    have h25 := isCNJ_length h
    simp only [List.length_take] at h25
    omega
  simp only [isCNJ, Bool.and_eq_true, beq_iff_eq] at h
  obtain ⟨⟨⟨⟨⟨⟨⟨⟨⟨⟨⟨hlen25, hd1⟩, hs7⟩, hd2⟩, hs10⟩, hd3⟩, hs15⟩, hd4⟩,
    hs17⟩, hd5⟩, hs20⟩, hd6⟩ := h
  rw [seg_take25 l 0 7 (by norm_num)] at hd1
  rw [seg_take25 l 8 2 (by norm_num)] at hd2
  rw [seg_take25 l 11 4 (by norm_num)] at hd3
  rw [seg_take25 l 16 1 (by norm_num)] at hd4
  rw [seg_take25 l 18 2 (by norm_num)] at hd5
  rw [seg_take25 l 21 4 (by norm_num)] at hd6
  rw [sepAt_take25 l 7 '-' (by norm_num)] at hs7
  rw [sepAt_take25 l 10 '.' (by norm_num)] at hs10
  rw [sepAt_take25 l 15 '.' (by norm_num)] at hs15
  rw [sepAt_take25 l 17 '.' (by norm_num)] at hs17
  rw [sepAt_take25 l 20 '.' (by norm_num)] at hs20
  have e7 : l.drop 7 = '-' :: l.drop 8 := by
    have hh := drop_cons_of_getElem (show 7 < l.length by omega) (sepAt_true_getElem hs7)
    norm_num at hh
    exact hh
  have e10 : l.drop 10 = '.' :: l.drop 11 := by
    have hh := drop_cons_of_getElem (show 10 < l.length by omega) (sepAt_true_getElem hs10)
    norm_num at hh
    exact hh
  have e15 : l.drop 15 = '.' :: l.drop 16 := by
    have hh := drop_cons_of_getElem (show 15 < l.length by omega) (sepAt_true_getElem hs15)
    norm_num at hh
    exact hh
  have e17 : l.drop 17 = '.' :: l.drop 18 := by
    have hh := drop_cons_of_getElem (show 17 < l.length by omega) (sepAt_true_getElem hs17)
    norm_num at hh
    exact hh
  have e20 : l.drop 20 = '.' :: l.drop 21 := by
    have hh := drop_cons_of_getElem (show 20 < l.length by omega) (sepAt_true_getElem hs20)
    norm_num at hh
    exact hh
  have t1 : take_digits 7 l = some (l.take 7, l.drop 7) :=
    take_digits_of (by omega) (by simpa using hd1)
  have u1 : expectSep '-' (l.drop 7) = some (l.drop 8) := by
    rw [e7]; exact expectSep_of
  have t2 : take_digits 2 (l.drop 8) = some ((l.drop 8).take 2, l.drop 10) := by
    have hh := take_digits_of (k := 2) (l := l.drop 8)
      (by simp [List.length_drop]; omega) hd2
    simpa using hh
  have u2 : expectSep '.' (l.drop 10) = some (l.drop 11) := by
    rw [e10]; exact expectSep_of
  have t3 : take_digits 4 (l.drop 11) = some ((l.drop 11).take 4, l.drop 15) := by
    have hh := take_digits_of (k := 4) (l := l.drop 11)
      (by simp [List.length_drop]; omega) hd3
    simpa using hh
  have u3 : expectSep '.' (l.drop 15) = some (l.drop 16) := by
    rw [e15]; exact expectSep_of
  have t4 : take_digits 1 (l.drop 16) = some ((l.drop 16).take 1, l.drop 17) := by
    have hh := take_digits_of (k := 1) (l := l.drop 16)
      (by simp [List.length_drop]; omega) hd4
    simpa using hh
  have u4 : expectSep '.' (l.drop 17) = some (l.drop 18) := by
    rw [e17]; exact expectSep_of
  have t5 : take_digits 2 (l.drop 18) = some ((l.drop 18).take 2, l.drop 20) := by
    have hh := take_digits_of (k := 2) (l := l.drop 18)
      (by simp [List.length_drop]; omega) hd5
    simpa using hh
  have u5 : expectSep '.' (l.drop 20) = some (l.drop 21) := by
    rw [e20]; exact expectSep_of
  have t6 : take_digits 4 (l.drop 21) = some ((l.drop 21).take 4, l.drop 25) := by
    have hh := take_digits_of (k := 4) (l := l.drop 21)
      (by simp [List.length_drop]; omega) hd6
    simpa using hh
  simp only [match_proc, t1, Option.some_bind, u1, t2, u2, t3, u3, t4, u4,
    t5, u5, t6, Option.map_some']
  rw [take25_decomp e7 e10 e15 e17 e20]

theorem match_proc_eq_none {l : List Char} (h : isCNJ (l.take 25) = false) :
    match_proc l = none := by
  cases hm : match_proc l with
  | none => rfl
  | some got =>
      have htrue := (match_proc_eq_some hm).2.1
      rw [h] at htrue
      cases htrue

theorem isCNJ_head_digit {c : Char} {rest : List Char}
    (h : isCNJ ((c :: rest).take 25) = true) : c.isDigit = true := by
  simp only [isCNJ, Bool.and_eq_true, beq_iff_eq] at h
  have hd : pyIsDigitStr (seg ((c :: rest).take 25) 0 7) = true := by tauto
  have hseg : seg ((c :: rest).take 25) 0 7 = c :: rest.take 6 := by
    rw [seg_take25 _ 0 7 (by norm_num)]
    rfl
  rw [hseg] at hd
  simp only [pyIsDigitStr, List.all_cons, Bool.and_eq_true] at hd
  exact hd.2.1

theorem scanProc_of_none {l : List Char}
    (h : ∀ i, i < l.length → isCNJ (seg l i 25) = false) : scanProc l = [] := by
  induction l with
  | nil => rfl
  | cons c rest ih =>
      simp only [scanProc]
      by_cases hlen : 25 ≤ (c :: rest).length
      · rw [if_pos hlen]
        have h0 : isCNJ ((c :: rest).take 25) = false := by
          have hh := h 0 (by simp)
          simpa [seg] using hh
        have hmp : match_proc (c :: rest) = none := match_proc_eq_none h0
        have hif : (if c.isDigit then match_proc (c :: rest) else none) = none := by
          rw [hmp]
          simp
        rw [hif]
        exact ih (fun i hi => by
          have hh := h (i + 1) (by simpa using Nat.succ_lt_succ hi)
          simpa [seg] using hh)
      · rw [if_neg hlen]

theorem scanProc_first {l : List Char} (i : Nat)
    (hi : isCNJ (seg l i 25) = true)
    (hmin : ∀ j, j < i → isCNJ (seg l j 25) = false) :
    scanProc l = seg l i 25 := by
  induction l generalizing i with
  | nil =>
      exfalso
      have hnil : seg ([] : List Char) i 25 = [] := by simp [seg]
      rw [hnil] at hi
      exact absurd hi (by decide)
  | cons c rest ih =>
      have hlen25 : 25 ≤ (c :: rest).length := by
        have hl := isCNJ_length hi
        simp only [seg, List.length_take, List.length_drop] at hl
        omega
      simp only [scanProc, if_pos hlen25]
      cases i with
      | zero =>
          have htake : seg (c :: rest) 0 25 = (c :: rest).take 25 := by simp [seg]
          rw [htake] at hi
          have hd : c.isDigit = true := isCNJ_head_digit hi
          have hmp : match_proc (c :: rest) = some ((c :: rest).take 25) :=
            match_proc_of_isCNJ hi
          rw [if_pos hd, hmp, htake]
      | succ n =>
          have h0 : isCNJ ((c :: rest).take 25) = false := by
            have hh := hmin 0 (Nat.succ_pos n)
            simpa [seg] using hh
          have hmp : match_proc (c :: rest) = none := match_proc_eq_none h0
          have hif : (if c.isDigit then match_proc (c :: rest) else none) = none := by
            rw [hmp]
            simp
          rw [hif]
          have hstep : seg (c :: rest) (n + 1) 25 = seg rest n 25 := by simp [seg]
          rw [hstep]
          exact ih n (by simpa [seg] using hi)
            (fun j hj => by
              have hh := hmin (j + 1) (Nat.succ_lt_succ hj)
              simpa [seg] using hh)

/-- C1: the fallback extractor returns exactly the first (by position)
substring of the text matching the CNJ shape `NNNNNNN-NN.NNNN.N.NN.NNNN`,
and the empty string when no position matches. -/
theorem extrair_numero_processo_do_corpo_spec (s : List Char) :
    (∀ i : Nat, isCNJ (seg s i 25) = true →
      (∀ j : Nat, j < i → isCNJ (seg s j 25) = false) →
      extrair_numero_processo_do_corpo s = seg s i 25) ∧
    ((∀ i : Nat, i < s.length → isCNJ (seg s i 25) = false) →
      extrair_numero_processo_do_corpo s = []) := by
  have hext : extrair_numero_processo_do_corpo s = scanProc s := by
    cases s <;> simp [extrair_numero_processo_do_corpo, scanProc]
  constructor
  · intro i hi hmin
    rw [hext]
    exact scanProc_first i hi hmin
  · intro h
    rw [hext]
    exact scanProc_of_none h

/-- Witness for C1: a text holding a CNJ number at position 9 (after earlier
digits that do not form a full match) yields exactly that substring, and a
text with no match yields the empty string. -/
theorem extrair_numero_processo_do_corpo_spec_witness :
    extrair_numero_processo_do_corpo
        ("Proc. 99: 1234567-89.2024.5.01.0001 intimado".toList) =
      seg ("Proc. 99: 1234567-89.2024.5.01.0001 intimado".toList) 10 25 ∧
    extrair_numero_processo_do_corpo ("sem numero de processo".toList) = [] := by
  constructor
  · exact (extrair_numero_processo_do_corpo_spec _).1 10 (by decide) (by decide)
  · exact (extrair_numero_processo_do_corpo_spec _).2 (by decide)

/-- Civil date to day number (proleptic Gregorian, standard days-from-civil
algorithm); lets concrete calendar dates stand for `datetime.date` values,
with `timedelta` arithmetic as integer addition on day numbers. -/
def daysFromCivil (y m d : Int) : Int :=
  let y2 := if m ≤ 2 then y - 1 else y
  let era := (if 0 ≤ y2 then y2 else y2 - 399) / 400
  let yoe := y2 - era * 400
  let mp := (m + 9) % 12
  let doy := (153 * mp + 2) / 5 + d - 1
  let doe := yoe * 365 + yoe / 4 - yoe / 100 + doy
  era * 146097 + doe - 719468

/-- Embeds `_apply_prazo_logic` of `app.py`: `hoje` stands for
`datetime.now().date()`; dates are day numbers. With start and end present,
days-remaining is recomputed as end minus today; with start and days-remaining
present and no end, the end is derived as start plus days-remaining. -/
def apply_prazo_logic (hoje : Int) (inicio_prazo fim_prazo : Option Int)
    (dias_restantes : Option Int) : Option Int × Option Int × Option Int :=
  match inicio_prazo, fim_prazo, dias_restantes with
  | some i, some f, _ => (some i, some f, some (f - hoje))
  | some i, none, some d => (some i, some (i + d), some d)
  | _, _, _ => (inicio_prazo, fim_prazo, dias_restantes)

/-- Row of the tables touched by `_calc_dias_restantes_df` in `app.py`. -/
structure PrazoRow where
  inicio_prazo : Option Int
  fim_prazo : Option Int
  dias_restantes : Option Int
  deriving DecidableEq

/-- Embeds `_calc_dias_restantes_df` of `app.py`: on every row with both
dates present, `dias_restantes` is recomputed as end minus today; all other
rows are unchanged. -/
def calc_dias_restantes_df (hoje : Int) (df : List PrazoRow) : List PrazoRow :=
  df.map fun r =>
    match r.inicio_prazo, r.fim_prazo with
    | some _, some f => { r with dias_restantes := some (f - hoje) }
    | _, _ => r

/-- C5: the deadline-derivation rule. Start plus days-remaining gives the end
date when no end is stored (2024-01-10 plus 5 days is 2024-01-15); when both
dates are present, days-remaining is recomputed as end minus today
(2024-01-15 against a today of 2024-01-12 gives 3), overriding any stored
value; the dataframe recomputation applies the same rule per row. -/
theorem apply_prazo_logic_spec (hoje i f : Int) (d : Int) :
    apply_prazo_logic hoje (some i) none (some d) =
      (some i, some (i + d), some d) ∧
    (∀ dprev : Option Int,
      apply_prazo_logic hoje (some i) (some f) dprev =
        (some i, some f, some (f - hoje))) ∧
    apply_prazo_logic (daysFromCivil 2024 1 12) (some (daysFromCivil 2024 1 10))
        none (some 5) =
      (some (daysFromCivil 2024 1 10), some (daysFromCivil 2024 1 15), some 5) ∧
    apply_prazo_logic (daysFromCivil 2024 1 12) (some (daysFromCivil 2024 1 10))
        (some (daysFromCivil 2024 1 15)) (some 5) =
      (some (daysFromCivil 2024 1 10), some (daysFromCivil 2024 1 15), some 3) ∧
    (∀ (a b : Int) (dprev : Option Int),
      calc_dias_restantes_df hoje [⟨some a, some b, dprev⟩] =
        [⟨some a, some b, some (b - hoje)⟩]) ∧
    (∀ (iopt dopt : Option Int),
      calc_dias_restantes_df hoje [⟨iopt, none, dopt⟩] = [⟨iopt, none, dopt⟩]) := by
  refine ⟨rfl, fun dprev => ?_, by decide, by decide, fun a b dprev => rfl,
    fun iopt dopt => ?_⟩
  · cases dprev <;> rfl
  · cases iopt <;> rfl

/-- Python `str.split(sep)` for a one-character separator. -/
def splitOnChar (sep : Char) : List Char → List (List Char)
  | [] => [[]]
  | c :: rest =>
      let r := splitOnChar sep rest
      if c = sep then [] :: r
      else (c :: r.headD []) :: r.tail

/-- Python `int` on a digit string. -/
def digitsToNat (l : List Char) : Nat :=
  l.foldl (fun a c => a * 10 + (c.toNat - 48)) 0

/-- Python `str.replace("min", "")`: removes non-overlapping occurrences
left to right. -/
def removeMin : List Char → List Char
  | 'm' :: 'i' :: 'n' :: rest => removeMin rest
  | c :: rest => c :: removeMin rest
  | [] => []

/-- Python `str.replace(c, "")` for a one-character pattern. -/
def removeChar (ch : Char) (l : List Char) : List Char :=
  l.filter (fun c => ¬ c = ch)

/-- Python `f"{n:02d}"` for the bounded values formatted here (n ≤ 99). -/
def fmt2 (n : Nat) : List Char := [Nat.digitChar (n / 10), Nat.digitChar (n % 10)]

/-- Validity of a time string: exactly `HH:MM` with zero-padded two-digit
hour at most 23 and two-digit minutes at most 59. -/
def isHHMM (l : List Char) : Bool :=
  match l with
  | [a, b, sep, c, d] =>
      sep == ':' && a.isDigit && b.isDigit && c.isDigit && d.isDigit &&
      decide ((a.toNat - 48) * 10 + (b.toNat - 48) ≤ 23) &&
      decide ((c.toNat - 48) * 10 + (d.toNat - 48) ≤ 59)
  | _ => false

theorem isHHMM_fmt {h m : Nat} (hh : h ≤ 23) (hm : m ≤ 59) :
    isHHMM (fmt2 h ++ ':' :: fmt2 m) = true := by
  have key : ∀ a < 24, ∀ b < 60, isHHMM (fmt2 a ++ ':' :: fmt2 b) = true := by decide
  exact key h (by omega) m (by omega)

/-- Minute extraction of the `"h"` branch of `_std_time_token` in
`scrap_email.py`: `p[1]` with `"min"` and `"m"` removed, when digits. -/
def std_h_minutes (p : List (List Char)) : Nat :=
  if 1 < p.length ∧ p.getD 1 [] ≠ [] then
    (let m_part := removeChar 'm' (removeMin (p.getD 1 []))
     if pyIsDigitStr m_part then digitsToNat m_part else 0)
  else 0

/-- First branch of `_std_time_token`: forms like `14h`, `14h30`, `9h05min`. -/
def std_time_branch_h (tl : List Char) : Option (List Char) :=
  if containsSub tl ['h'] then
    (if pyIsDigitStr ((splitOnChar 'h' tl).headD []) then
      (let h := digitsToNat ((splitOnChar 'h' tl).headD [])
       let m := std_h_minutes (splitOnChar 'h' tl)
       if h ≤ 23 ∧ m ≤ 59 then some (fmt2 h ++ ':' :: fmt2 m) else none)
    else none)
  else none

/-- Second branch of `_std_time_token`: forms like `14:30`, after removing
`h`/`H` characters. -/
def std_time_branch_colon (t : List Char) : Option (List Char) :=
  if containsSub t [':'] then
    (let t2 := removeChar 'H' (removeChar 'h' t)
     let parts := splitOnChar ':' t2
     if 2 ≤ parts.length ∧ pyIsDigitStr (parts.headD []) = true ∧
        pyIsDigitStr (parts.getD 1 []) = true then
       (let h := digitsToNat (parts.headD [])
        let m := digitsToNat (parts.getD 1 [])
        if h ≤ 23 ∧ m ≤ 59 then some (fmt2 h ++ ':' :: fmt2 m) else none)
     else none)
  else none

/-- Third branch of `_std_time_token`: forms like `14 horas`. -/
def std_time_branch_hora (tl : List Char) : Option (List Char) :=
  if containsSub tl ("horas".toList) ∨ containsSub tl ("hora".toList) then
    (let nums := tl.filter (fun c => c.isDigit)
     if pyIsDigitStr nums then
       (let h := digitsToNat nums
        if h ≤ 23 then some (fmt2 h ++ ':' :: ['0', '0']) else none)
     else none)
  else none

/-- Embeds `_std_time_token` of `scrap_email.py`: strips whitespace,
normalizes, and tries the `h`, colon and `hora` readings in order; each
reading only answers inside the 0-23/0-59 bounds.  `std_time_dispatch` is
the branch chain over the stripped token `t` and its normalization `tl`. -/
def std_time_dispatch (t tl : List Char) : List Char :=
  match std_time_branch_h tl with
  | some r => r
  | none =>
      match std_time_branch_colon t with
      | some r => r
      | none =>
          match std_time_branch_hora tl with
          | some r => r
          | none => []

def std_time_token (tok : List Char) : List Char :=
  if tok = [] then []
  else
    let t := tok.filter (fun c => ¬ c.isWhitespace)
    std_time_dispatch t (normalizar t)

/-- Characters kept inside a token by `_scan_time_simple`:
`ch.isalnum() or ch in [":", "h", "H"]`. -/
def timeTokenChar (c : Char) : Bool :=
  c.isAlphanum || c = ':' || c = 'h' || c = 'H'

/-- Tokenizer of `_scan_time_simple` in `scrap_email.py`: maximal runs of
token characters, in order. -/
def tokenizeTime : List Char → List (List Char)
  | [] => []
  | c :: rest =>
      let ts := tokenizeTime rest
      if timeTokenChar c then
        match rest with
        | r :: _ => if timeTokenChar r then (c :: ts.headD []) :: ts.tail else [c] :: ts
        | [] => [c] :: ts
      else ts

/-- Loop of `_scan_time_simple`: first token whose standardization is
nonempty. -/
def firstTimeHit : List (List Char) → List Char
  | [] => []
  | tok :: rest =>
      let tm := std_time_token tok
      if tm ≠ [] then tm else firstTimeHit rest

/-- Embeds `_scan_time_simple` of `scrap_email.py`. -/
def scan_time_simple (window : List Char) : List Char :=
  if window = [] then [] else firstTimeHit (tokenizeTime window)

/-- Embeds `_scan_date_simple` of `scrap_email.py`: scans for
`DD/MM/YYYY` while at least ten characters remain. -/
def scan_date_simple : List Char → List Char
  | [] => []
  | c :: rest =>
      if 10 ≤ (c :: rest).length then
        (if pyIsDigitStr (seg (c :: rest) 0 2) = true ∧ sepAt (c :: rest) 2 '/' = true ∧
            pyIsDigitStr (seg (c :: rest) 3 2) = true ∧ sepAt (c :: rest) 5 '/' = true ∧
            pyIsDigitStr (seg (c :: rest) 6 4) = true
         then seg (c :: rest) 0 2 ++ '/' :: (seg (c :: rest) 3 2 ++ '/' :: seg (c :: rest) 6 4)
         else scan_date_simple rest)
      else []

/-- Python slice `l[a:b]` with possibly negative bounds. -/
def pySliceInt (l : List Char) (a b : Int) : List Char :=
  let n : Int := l.length
  let lo := (if a < 0 then max (n + a) 0 else min a n).toNat
  let hi := (if b < 0 then max (n + b) 0 else min b n).toNat
  (l.take hi).drop lo

/-- Python `x or ""` on a string. -/
def orEmpty (l : List Char) : List Char := if l = [] then [] else l

/-- Second half of `extrair_data_hora_evento` in `scrap_email.py`: given the
600-character window after the event keyword, find a date and then a time
near it, or a time and then a date near it. -/
def evento_from_window (window : List Char) : List Char × List Char :=
  let data := scan_date_simple window
  if data ≠ [] then
    (let idx : Int := match findSub window data with | some k => (k : Int) | none => -1
     let sub := pySliceInt window idx (idx + 120)
     let hora := scan_time_simple sub
     (data, orEmpty hora))
  else
    (let hora := scan_time_simple window
     if hora ≠ [] then
       (let idx : Int := match findSub window hora with | some k => (k : Int) | none => -1
        let sub := pySliceInt window idx (idx + 160)
        let data2 := scan_date_simple sub
        if data2 ≠ [] then (data2, hora) else ([], []))
     else ([], []))

/-- Keyword positioning of `extrair_data_hora_evento` in `scrap_email.py`:
position of `alvo` in the normalized text, falling back to the earliest of
`audien`/`peric` when absent. -/
def evento_pos (tn alvo : List Char) : Option Nat :=
  match findSub tn alvo with
  | some p => some p
  | none =>
      match findSub tn ("audien".toList), findSub tn ("peric".toList) with
      | some a, some b => some (min a b)
      | some a, none => some a
      | none, some b => some b
      | none, none => none

/-- Embeds `extrair_data_hora_evento` of `scrap_email.py`: positions the
window at the requested event keyword (falling back to whichever of
`audien`/`peric` occurs first) and extracts date and time from it.
`evento_dispatch` is the final dispatch on the keyword position. -/
def evento_dispatch (t : List Char) (p : Option Nat) : List Char × List Char :=
  match p with
  | none => ([], [])
  | some start => evento_from_window ((t.drop start).take 600)

def extrair_data_hora_evento (texto tipo : List Char) : List Char × List Char :=
  if texto = [] then ([], [])
  else
    let t := texto.filter (fun c => ¬ c = '\r')
    let tn := normalizar t
    let alvo := if ("aud".toList).isPrefixOf (tipo.map pyToLower)
      then "audien".toList else "peric".toList
    evento_dispatch t (evento_pos tn alvo)

theorem orEmpty_eq (l : List Char) : orEmpty l = l := by
  unfold orEmpty
  split_ifs with h
  · rw [h]
  · rfl

theorem std_time_branch_h_valid {tl r : List Char}
    (h : std_time_branch_h tl = some r) : isHHMM r = true := by
  simp only [std_time_branch_h] at h
  split_ifs at h with h1 h2 h3
  injection h with h'
  rw [← h']
  exact isHHMM_fmt h3.1 h3.2

theorem std_time_branch_colon_valid {t r : List Char}
    (h : std_time_branch_colon t = some r) : isHHMM r = true := by
  simp only [std_time_branch_colon] at h
  split_ifs at h with h1 h2 h3
  injection h with h'
  rw [← h']
  exact isHHMM_fmt h3.1 h3.2

theorem std_time_branch_hora_valid {tl r : List Char}
    (h : std_time_branch_hora tl = some r) : isHHMM r = true := by
  simp only [std_time_branch_hora] at h
  split_ifs at h with h1 h2 h3
  injection h with h'
  rw [← h']
  exact isHHMM_fmt (m := 0) h3 (by omega)

theorem std_time_dispatch_valid (t tl : List Char) :
    std_time_dispatch t tl = [] ∨ isHHMM (std_time_dispatch t tl) = true := by
  unfold std_time_dispatch
  rcases hb1 : std_time_branch_h tl with _ | r1
  · rcases hb2 : std_time_branch_colon t with _ | r2
    · rcases hb3 : std_time_branch_hora tl with _ | r3
      · left; rfl
      · right
        exact std_time_branch_hora_valid hb3
    · right
      exact std_time_branch_colon_valid hb2
  · right
    exact std_time_branch_h_valid hb1

theorem std_time_token_valid (tok : List Char) :
    std_time_token tok = [] ∨ isHHMM (std_time_token tok) = true := by
  unfold std_time_token
  split_ifs with h0
  · left; rfl
  · exact std_time_dispatch_valid _ _

theorem firstTimeHit_valid (ts : List (List Char)) :
    firstTimeHit ts = [] ∨ isHHMM (firstTimeHit ts) = true := by
  induction ts with
  | nil => left; rfl
  | cons tok rest ih =>
      simp only [firstTimeHit]
      by_cases htm : std_time_token tok ≠ []
      · rw [if_pos htm]
        rcases std_time_token_valid tok with h | h
        · exact absurd h htm
        · right; exact h
      · rw [if_neg htm]
        exact ih

theorem scan_time_simple_valid (window : List Char) :
    scan_time_simple window = [] ∨ isHHMM (scan_time_simple window) = true := by
  unfold scan_time_simple
  split_ifs with h
  · left; rfl
  · exact firstTimeHit_valid _

theorem evento_from_window_snd (window : List Char) :
    (evento_from_window window).2 = [] ∨
      isHHMM ((evento_from_window window).2) = true := by
  simp only [evento_from_window]
  split_ifs with h1 h2 h3
  · simp only [orEmpty_eq]
    exact scan_time_simple_valid _
  · rcases scan_time_simple_valid window with h | h
    · exact absurd h h2
    · right; exact h
  · left; rfl
  · left; rfl

/-- C10: for every input text and event type, the time component returned by
`extrair_data_hora_evento` is either the empty string or exactly `HH:MM`
with a zero-padded hour in 00..23 and zero-padded minutes in 00..59. -/
theorem extrair_data_hora_evento_time_shape (texto tipo : List Char) :
    (extrair_data_hora_evento texto tipo).2 = [] ∨
      isHHMM ((extrair_data_hora_evento texto tipo).2) = true := by
  have hdisp : ∀ (t : List Char) (p : Option Nat),
      (evento_dispatch t p).2 = [] ∨ isHHMM ((evento_dispatch t p).2) = true := by
    intro t p
    cases p with
    | none => left; rfl
    | some start => exact evento_from_window_snd _
  unfold extrair_data_hora_evento
  split_ifs with h0
  · left; rfl
  all_goals exact hdisp _ _


/-- Message as seen by `buscar_e_processar_emails` in `scrap_email.py`: the
parsed `Date` header (`none` when `parsedate_to_datetime` raises) and the
number of rows that processing its fixed body inserts (a pure function of
the message content; the branch taken per sender does not depend on the
watermark). -/
structure EmailMsg where
  date : Option Int
  rows : Nat
  deriving DecidableEq

/-- Body of the ingestion loop of `buscar_e_processar_emails` in
`scrap_email.py`: a message whose parsed date is at most `ultima_data` (`w`)
is skipped; any other message is processed (its rows inserted) and raises
the running `max_data_processada` when its parsed date exceeds it; a message
with an unparseable date is always processed. -/
def emailStep (w : Int) (acc : Nat × Int) (m : EmailMsg) : Nat × Int :=
  match m.date with
  | some d =>
      if d ≤ w then acc
      else (acc.1 + m.rows, if acc.2 < d then d else acc.2)
  | none => (acc.1 + m.rows, acc.2)

/-- Embeds `buscar_e_processar_emails` of `scrap_email.py`.  Returns the
inserted row count and the final `max_data_processada`; since
`salvar_ultima_data` fires exactly when that maximum exceeds the old
watermark, the second component is the stored watermark after the run. -/
def buscar_e_processar_emails (msgs : List EmailMsg) (ultima_data : Int) :
    Nat × Int :=
  msgs.foldl (emailStep ultima_data) (0, ultima_data)

theorem emailStep_snd_mono (w : Int) (acc : Nat × Int) (m : EmailMsg) :
    acc.2 ≤ (emailStep w acc m).2 := by
  unfold emailStep
  rcases hm : m.date with _ | d
  · exact le_refl _
  · dsimp only
    by_cases hd : d ≤ w
    · rw [if_pos hd]
    · rw [if_neg hd]
      by_cases hlt : acc.2 < d
      · simp only [if_pos hlt]
        exact le_of_lt hlt
      · simp only [if_neg hlt]
        exact le_refl _

theorem emailStep_skip {w : Int} {m : EmailMsg} {d : Int} (acc : Nat × Int)
    (hd : m.date = some d) (hdw : d ≤ w) : emailStep w acc m = acc := by
  unfold emailStep
  rw [hd]
  dsimp only
  rw [if_pos hdw]

theorem emailStep_covers {w : Int} {m : EmailMsg} {d : Int} (acc : Nat × Int)
    (hd : m.date = some d) (hdw : ¬ d ≤ w) :
    d ≤ (emailStep w acc m).2 := by
  unfold emailStep
  rw [hd]
  dsimp only
  rw [if_neg hdw]
  by_cases hlt : acc.2 < d
  · simp only [if_pos hlt]
    exact le_refl _
  · simp only [if_neg hlt]
    omega

theorem email_foldl_snd_mono (w : Int) (msgs : List EmailMsg) :
    ∀ acc : Nat × Int, acc.2 ≤ (msgs.foldl (emailStep w) acc).2 := by
  induction msgs with
  | nil => intro acc; exact le_refl _
  | cons m rest ih =>
      intro acc
      simp only [List.foldl_cons]
      exact le_trans (emailStep_snd_mono w acc m) (ih _)

/-- The watermark stored by an email-ingestion run never moves backwards. -/
theorem buscar_e_processar_emails_mono (msgs : List EmailMsg) (w : Int) :
    w ≤ (buscar_e_processar_emails msgs w).2 :=
  email_foldl_snd_mono w msgs (0, w)

theorem email_foldl_covers (w : Int) (msgs : List EmailMsg) :
    ∀ acc : Nat × Int, w ≤ acc.2 →
      ∀ m ∈ msgs, ∀ d : Int, m.date = some d →
        d ≤ (msgs.foldl (emailStep w) acc).2 := by
  induction msgs with
  | nil => intro acc _ m hm; cases hm
  | cons m0 rest ih =>
      intro acc hacc m hm d hd
      simp only [List.foldl_cons]
      rcases List.mem_cons.mp hm with hme | hmr
      · subst hme
        by_cases hdw : d ≤ w
        · rw [emailStep_skip acc hd hdw]
          exact le_trans (le_trans hdw hacc) (email_foldl_snd_mono w rest acc)
        · exact le_trans (emailStep_covers acc hd hdw)
            (email_foldl_snd_mono w rest _)
      · exact ih _ (le_trans hacc (emailStep_snd_mono w acc m0)) m hmr d hd

/-- Each message date processed by a run is covered by the run's final
watermark. -/
theorem buscar_e_processar_emails_covers (msgs : List EmailMsg) (w : Int) :
    ∀ m ∈ msgs, ∀ d : Int, m.date = some d →
      d ≤ (buscar_e_processar_emails msgs w).2 :=
  email_foldl_covers w msgs (0, w) (le_refl w)

/-- A run in which every message has a parsed date at most the watermark
skips everything and changes nothing. -/
theorem buscar_e_processar_emails_all_skipped (msgs : List EmailMsg) (w : Int)
    (h : ∀ m ∈ msgs, ∃ d : Int, m.date = some d ∧ d ≤ w) :
    buscar_e_processar_emails msgs w = (0, w) := by
  unfold buscar_e_processar_emails
  induction msgs with
  | nil => rfl
  | cons m rest ih =>
      obtain ⟨d, hd, hdw⟩ := h m (List.mem_cons_self m rest)
      simp only [List.foldl_cons, emailStep_skip _ hd hdw]
      exact ih (fun m' hm' => h m' (List.mem_cons_of_mem m hm'))

/-- C2 counterexample: a mailbox holding a single message whose `Date`
header does not parse (`data_email = None`).  The first run inserts its row
but never advances the watermark; the second run, with no new mail since,
inserts the same row again (1 row, not 0), so the claim is false on the
code. -/
theorem buscar_e_processar_emails_counterexample :
    buscar_e_processar_emails [⟨none, 1⟩] 0 = (1, 0) ∧
    (buscar_e_processar_emails [⟨none, 1⟩]
      ((buscar_e_processar_emails [⟨none, 1⟩] 0).2)).1 = 1 := by
  refine ⟨rfl, rfl⟩

/-- C2 amended: provided every message's `Date` header parses, re-running
ingestion with no new mail since a successful run inserts zero rows:
messages with date at most the watermark are skipped, and the watermark
written by the first run covers every parsed date that run processed. -/
theorem buscar_e_processar_emails_idempotent (msgs : List EmailMsg) (w : Int)
    (hdates : ∀ m ∈ msgs, m.date ≠ none) :
    (buscar_e_processar_emails msgs
      ((buscar_e_processar_emails msgs w).2)).1 = 0 := by
  have hall : ∀ m ∈ msgs, ∃ d : Int,
      m.date = some d ∧ d ≤ (buscar_e_processar_emails msgs w).2 := by
    intro m hm
    cases hd : m.date with
    | none => exact absurd hd (hdates m hm)
    | some d =>
        exact ⟨d, rfl, buscar_e_processar_emails_covers msgs w m hm d hd⟩
  rw [buscar_e_processar_emails_all_skipped _ _ hall]

/-- Witness for C2 amended: two dated messages, all skipped on the second
run. -/
theorem buscar_e_processar_emails_idempotent_witness :
    (buscar_e_processar_emails [⟨some 5, 2⟩, ⟨some 3, 1⟩]
      ((buscar_e_processar_emails [⟨some 5, 2⟩, ⟨some 3, 1⟩] 0).2)).1 = 0 :=
  buscar_e_processar_emails_idempotent [⟨some 5, 2⟩, ⟨some 3, 1⟩] 0 (by decide)

/-- Zero-pad a digit string on the left to width `k`. -/
def padZeros (k : Nat) (l : List Char) : List Char :=
  List.replicate (k - l.length) '0' ++ l

/-- Python `f"{inicio:%Y-%m-%d}"` on a civil date `(y, m, d)`. -/
def fmtDateISO : Int × Int × Int → List Char
  | (y, m, d) =>
      padZeros 4 (Nat.toDigits 10 y.toNat) ++ '-' ::
      (padZeros 2 (Nat.toDigits 10 m.toNat) ++ '-' ::
       padZeros 2 (Nat.toDigits 10 d.toNat))

/-- Embeds `compute_hash` of `scrap_pje.py`.  The cryptographic digests are
abstract function parameters: `md5hex16` stands for
`hashlib.md5(observacoes).hexdigest()[:16]` and `sha256hex` for
`hashlib.sha256(base).hexdigest()`; the dedupe argument needs only that both
are functions of their input. -/
def compute_hash (md5hex16 sha256hex : List Char → List Char)
    (processo : List Char) (inicio : Int × Int × Int)
    (observacoes : List Char) : List Char :=
  sha256hex ((processo.map pyToLower) ++ '|' ::
    (fmtDateISO inicio ++ '|' :: md5hex16 observacoes))

/-- Record as produced by `normalize_record` in `scrap_pje.py`: the three
fields feeding `compute_hash` are kept apart; the remaining columns (sector,
client, source, capture time, OAB, raw HTML) are collapsed into `payload`,
which the upsert overwrites wholesale. -/
structure PubRec where
  processo : List Char
  inicio_prazo : Int × Int × Int
  observacoes : List Char
  payload : List Char
  deriving DecidableEq

/-- Semantics of `INSERT ... ON CONFLICT (hash_dedup) DO UPDATE` used by
`save_records` in `scrap_pje.py` for one row: a row whose dedupe hash
already exists updates that row in place, otherwise a new row is appended. -/
def upsert (t : List (List Char × PubRec)) (h : List Char) (r : PubRec) :
    List (List Char × PubRec) :=
  if t.any (fun p => p.1 = h) then
    t.map (fun p => if p.1 = h then (h, r) else p)
  else t ++ [(h, r)]

/-- Embeds `save_records` of `scrap_pje.py` over the `publicacoes` table
keyed by the unique `hash_dedup` column: computes the dedupe hash of every
record and upserts it. -/
def save_records (md5hex16 sha256hex : List Char → List Char)
    (t : List (List Char × PubRec)) (recs : List PubRec) :
    List (List Char × PubRec) :=
  recs.foldl
    (fun acc r =>
      upsert acc
        (compute_hash md5hex16 sha256hex r.processo r.inicio_prazo r.observacoes)
        r)
    t

theorem upsert_length (t : List (List Char × PubRec)) (h : List Char)
    (r : PubRec) (hmem : t.any (fun p => p.1 = h) = true) :
    (upsert t h r).length = t.length := by
  unfold upsert
  rw [if_pos hmem]
  exact List.length_map t _

theorem upsert_keys (t : List (List Char × PubRec)) (h : List Char)
    (r : PubRec) (h' : List Char) :
    ((upsert t h r).any fun p => p.1 = h') =
      ((t.any fun p => p.1 = h') || decide (h = h')) := by
  unfold upsert
  by_cases hmem : t.any (fun p => p.1 = h) = true
  · rw [if_pos hmem]
    have hfun : ((fun p : List Char × PubRec => decide (p.1 = h')) ∘
        fun p => if p.1 = h then (h, r) else p) =
        (fun p : List Char × PubRec => decide (p.1 = h')) := by
      funext p
      simp only [Function.comp_apply]
      by_cases hph : p.1 = h
      · rw [if_pos hph, hph]
      · rw [if_neg hph]
    rw [List.any_map, hfun]
    by_cases heq : h = h'
    · subst heq
      simp [hmem]
    · simp [heq]
  · rw [if_neg hmem, List.any_append]
    simp [List.any_cons]

theorem save_records_cons (md5hex16 sha256hex : List Char → List Char)
    (t : List (List Char × PubRec)) (r : PubRec) (rest : List PubRec) :
    save_records md5hex16 sha256hex t (r :: rest) =
      save_records md5hex16 sha256hex
        (upsert t
          (compute_hash md5hex16 sha256hex r.processo r.inicio_prazo
            r.observacoes) r)
        rest := rfl

theorem save_records_keeps_keys (md5hex16 sha256hex : List Char → List Char)
    (recs : List PubRec) :
    ∀ (t : List (List Char × PubRec)) (h' : List Char),
      (t.any fun p => p.1 = h') = true →
      ((save_records md5hex16 sha256hex t recs).any fun p => p.1 = h') = true := by
  induction recs with
  | nil => intro t h' ht; exact ht
  | cons r rest ih =>
      intro t h' ht
      rw [save_records_cons]
      refine ih _ h' ?_
      rw [upsert_keys, ht, Bool.true_or]

theorem save_records_adds_keys (md5hex16 sha256hex : List Char → List Char)
    (recs : List PubRec) :
    ∀ (t : List (List Char × PubRec)), ∀ r ∈ recs,
      ((save_records md5hex16 sha256hex t recs).any fun p =>
        p.1 = compute_hash md5hex16 sha256hex r.processo r.inicio_prazo
          r.observacoes) = true := by
  induction recs with
  | nil => intro t r hr; cases hr
  | cons r0 rest ih =>
      intro t r hr
      rcases List.mem_cons.mp hr with hre | hrr
      · subst hre
        rw [save_records_cons]
        refine save_records_keeps_keys md5hex16 sha256hex rest _ _ ?_
        rw [upsert_keys]
        simp
      · rw [save_records_cons]
        exact ih _ r hrr

theorem save_records_length_of_keys (md5hex16 sha256hex : List Char → List Char)
    (recs : List PubRec) :
    ∀ (t : List (List Char × PubRec)),
      (∀ r ∈ recs, (t.any fun p =>
          p.1 = compute_hash md5hex16 sha256hex r.processo r.inicio_prazo
            r.observacoes) = true) →
      (save_records md5hex16 sha256hex t recs).length = t.length ∧
      (∀ h', ((save_records md5hex16 sha256hex t recs).any fun p => p.1 = h') =
        (t.any fun p => p.1 = h')) := by
  induction recs with
  | nil => intro t _; exact ⟨rfl, fun h' => rfl⟩
  | cons r0 rest ih =>
      intro t hall
      have h0 := hall r0 (List.mem_cons_self r0 rest)
      rw [save_records_cons]
      have hkeys : ∀ h', ((upsert t
          (compute_hash md5hex16 sha256hex r0.processo r0.inicio_prazo
            r0.observacoes) r0).any fun p => p.1 = h') =
          (t.any fun p => p.1 = h') := by
        intro h'
        rw [upsert_keys]
        by_cases heq : compute_hash md5hex16 sha256hex r0.processo
            r0.inicio_prazo r0.observacoes = h'
        · subst heq
          simp [h0]
        · simp [heq]
      obtain ⟨hl, hk⟩ := ih _ (fun r hr => by
        rw [hkeys]
        exact hall r (List.mem_cons_of_mem r0 hr))
      refine ⟨?_, fun h' => ?_⟩
      · rw [hl, upsert_length _ _ _ h0]
      · rw [hk, hkeys]

/-- C3: re-running the web-scrape persistence on the same normalized records
performs zero net row insertions and leaves the key set of the `publicacoes`
table unchanged: every record recomputes the same dedupe hash (SHA-256 over
the lower-cased process number, the ISO start date and the truncated MD5 of
the notes), so every upsert hits the existing row and updates it in place. -/
theorem save_records_idempotent (md5hex16 sha256hex : List Char → List Char)
    (t : List (List Char × PubRec)) (recs : List PubRec) :
    (save_records md5hex16 sha256hex
        (save_records md5hex16 sha256hex t recs) recs).length =
      (save_records md5hex16 sha256hex t recs).length ∧
    (∀ h', ((save_records md5hex16 sha256hex
        (save_records md5hex16 sha256hex t recs) recs).any fun p => p.1 = h') =
      ((save_records md5hex16 sha256hex t recs).any fun p => p.1 = h')) := by
  exact save_records_length_of_keys md5hex16 sha256hex recs _
    (fun r hr => save_records_adds_keys md5hex16 sha256hex recs t r hr)


/-- Python exceptions raised on the scrape-side watermark paths:
SQLAlchemy's `InvalidRequestError` from `filter_by` on a missing attribute,
and the `ValueError` that `run` raises on an inverted date range. -/
inductive PyError where
  | invalidRequest
  | valueError
  deriving DecidableEq

/-- Columns of the `LastChecked` model in `db.py`: only `id` and
`checked_at` — there is no `scope` column. -/
def lastCheckedColumns : List (List Char) :=
  ["id".toList, "checked_at".toList]

/-- Database state touched by `run` in `scrap_pje.py`: the `publicacoes`
table and the single `last_checked` row's `checked_at` timestamp (the
committed `LastChecked` model is scope-less). -/
structure PjeState where
  pubs : List (List Char × PubRec)
  last_checked : Option Int
  deriving DecidableEq

/-- Embeds `get_last_checked` of `last_checked_utils.py`.  Its first
statement is `db.query(LastChecked).filter_by(scope=scope)`, and SQLAlchemy
raises `InvalidRequestError` when the entity lacks the named attribute;
since `LastChecked` in `db.py` has no `scope` column, the read of the
stored timestamp in the body is unreachable. -/
def get_last_checked (st : PjeState) : Except PyError (Option Int) :=
  if lastCheckedColumns.contains ("scope".toList) then
    Except.ok st.last_checked
  else Except.error PyError.invalidRequest

/-- Embeds `set_last_checked` of `last_checked_utils.py`: the same
`filter_by(scope=scope)` first statement raises for the same missing-column
reason, so the unconditional overwrite of `checked_at` in its body (no
comparison against the previous value) is unreachable. -/
def set_last_checked (st : PjeState) (dt : Int) : Except PyError PjeState :=
  if lastCheckedColumns.contains ("scope".toList) then
    Except.ok { st with last_checked := some dt }
  else Except.error PyError.invalidRequest

/-- Timestamp of `datetime.combine(cur, time(23, 59, 59))` for day number
`cur`. -/
def end_of_day (cur : Int) : Int := cur * 86400 + 86399

/-- Calendar day of a timestamp (`.astimezone(TZ).date()`), floor division
by the seconds of a day. -/
def day_of (ts : Int) : Int := ts / 86400

/-- Day loop of `run` in `scrap_pje.py` over `n` consecutive days starting
at `cur`: fetch and normalize the day's records (`fetch`); in dry-run mode
log the first two as samples, otherwise upsert them via `save_records` and
count them; then call `set_last_checked`.  Each iteration's body runs
inside `try/except Exception: ... break`, so an exception from
`set_last_checked` ends the loop after that day's work.  Returns the final
state, the inserted count and the dry-run sample log. -/
def runPjeDays (fetch : Int → List PubRec)
    (md5hex16 sha256hex : List Char → List Char) (dry_run : Bool) :
    Nat → Int → PjeState → PjeState × Nat × List PubRec
  | 0, _, st => (st, 0, [])
  | n + 1, cur, st =>
      let norm := fetch cur
      let st1 := if dry_run then st
        else { st with pubs := save_records md5hex16 sha256hex st.pubs norm }
      let inserted := if dry_run then 0 else norm.length
      let logged := if dry_run then norm.take 2 else []
      match set_last_checked st1 (end_of_day cur) with
      | Except.error _ => (st1, inserted, logged)
      | Except.ok st2 =>
          let next := runPjeDays fetch md5hex16 sha256hex dry_run n (cur + 1) st2
          (next.1, inserted + next.2.1, logged ++ next.2.2)

/-- Embeds `run` of `scrap_pje.py`.  The first database access is
`get_last_checked(SCOPE)` at the top of the function, outside the loop's
`try/except`, so the `InvalidRequestError` it raises propagates and the run
terminates with the database untouched; the range resolution from the
stored watermark and today, the `ValueError` on an inverted range and the
day loop are the continuation after that lookup.  Fetching is a parameter
and assumed to succeed.  Returns the final database state, the dry-run
sample log and the outcome. -/
def runPje (fetch : Int → List PubRec)
    (md5hex16 sha256hex : List Char → List Char)
    (from_date to_date : Option Int) (dry_run : Bool) (today : Int)
    (st : PjeState) : PjeState × List PubRec × Except PyError Nat :=
  match get_last_checked st with
  | Except.error e => (st, [], Except.error e)
  | Except.ok last_dt =>
      let start := match last_dt with
        | some l => day_of l
        | none => today
      let f := from_date.getD start
      let t := to_date.getD today
      if t < f then (st, [], Except.error PyError.valueError)
      else
        let r := runPjeDays fetch md5hex16 sha256hex dry_run (t - f + 1).toNat f st
        (r.1, r.2.2, Except.ok r.2.1)

theorem get_last_checked_raises (st : PjeState) :
    get_last_checked st = Except.error PyError.invalidRequest := rfl

theorem runPje_crashes (fetch : Int → List PubRec)
    (md5hex16 sha256hex : List Char → List Char)
    (from_date to_date : Option Int) (dry_run : Bool) (today : Int)
    (st : PjeState) :
    runPje fetch md5hex16 sha256hex from_date to_date dry_run today st =
      (st, [], Except.error PyError.invalidRequest) := by
  unfold runPje
  rw [get_last_checked_raises]

/-- C6: the persisted watermark never regresses.  The email orchestrator
overwrites its watermark only with the run's maximum processed date, which
is at least the old value; and every run of the scrape orchestrator — dry
or not, with or without an explicit CLI date range — raises
`InvalidRequestError` at the initial `get_last_checked` lookup (the
`LastChecked` model of `db.py` has no `scope` column) and terminates with
the database untouched, so no scrape run ever overwrites the stored
watermark at all, let alone with a strictly earlier timestamp. -/
theorem watermark_never_regresses :
    (∀ (msgs : List EmailMsg) (w : Int),
      w ≤ (buscar_e_processar_emails msgs w).2) ∧
    (∀ (fetch : Int → List PubRec)
      (md5hex16 sha256hex : List Char → List Char)
      (from_date to_date : Option Int) (dry_run : Bool) (today : Int)
      (st : PjeState),
      (runPje fetch md5hex16 sha256hex from_date to_date dry_run today st).1 =
        st) := by
  refine ⟨buscar_e_processar_emails_mono, ?_⟩
  intro fetch md5hex16 sha256hex from_date to_date dry_run today st
  rw [runPje_crashes]

/-- Concrete fetched record for the C7 counterexample: a day with one
publication available, which a completing dry run would log as a sample. -/
def c7rec : PubRec :=
  { processo := "1234567-89.2024.8.19.0001".toList,
    inicio_prazo := (2024, 1, 5),
    observacoes := "intimacao eletronica".toList,
    payload := [] }

/-- C7 counterexample: a dry run over an explicit one-day range whose fetch
returns a record.  The claim says such a run logs sample records; the
committed code raises `InvalidRequestError` at `get_last_checked(SCOPE)`
before the day loop, so the run terminates logging no samples (its sample
log is empty although the day's fetch is nonempty) — it never reaches the
dry-run logging path. -/
theorem runPje_dry_run_counterexample :
    runPje (fun _ => [c7rec]) (fun l => l) (fun l => l) (some 5) (some 5)
        true 100 ⟨[], none⟩ =
      (⟨[], none⟩, [], Except.error PyError.invalidRequest) ∧
    (fun _ : Int => [c7rec]) 5 ≠ ([] : List PubRec) := by
  refine ⟨runPje_crashes _ _ _ _ _ _ _ _, by decide⟩

/-- C7 amended: a dry-run invocation leaves both the `publicacoes` table
and the persisted watermark unchanged, but not by taking the dry-run
logging path: the run raises `InvalidRequestError` at the initial
`get_last_checked` lookup and terminates before logging any sample records
or performing any database write. -/
theorem runPje_dry_run_no_writes (fetch : Int → List PubRec)
    (md5hex16 sha256hex : List Char → List Char)
    (from_date to_date : Option Int) (today : Int) (st : PjeState) :
    runPje fetch md5hex16 sha256hex from_date to_date true today st =
      (st, [], Except.error PyError.invalidRequest) :=
  runPje_crashes fetch md5hex16 sha256hex from_date to_date true today st

/-- A Python value held in a row column: a date or a string. -/
inductive PyVal where
  | d (x : Int)
  | s (l : List Char)
  deriving DecidableEq

/-- Python truthiness of an optional column value: `None` and the empty
string are falsy; dates and nonempty strings are truthy. -/
def pyTruthy : Option PyVal → Bool
  | none => false
  | some (.d _) => true
  | some (.s l) => ¬ l.isEmpty

/-- Python `a or b`. -/
def pyOr (a b : Option PyVal) : Option PyVal :=
  if pyTruthy a then a else b

/-- Source row as read by `_move_to_concluidas` in `app.py`: the union of
the attributes probed by `getattr` over the three source models
(Andamento/Publicacao rows versus Agenda rows); an attribute absent from
the row's model is `none`, matching `getattr(rec, name, None)`. -/
structure SrcRec where
  id : Nat
  inicio_prazo : Option PyVal := none
  data : Option PyVal := none
  fim_prazo : Option PyVal := none
  dias_restantes : Option PyVal := none
  setor : Option PyVal := none
  horario : Option PyVal := none
  cliente : Option PyVal := none
  processo : Option PyVal := none
  numero_processo : Option PyVal := none
  para_ramon_e_adriana_despacharem : Option PyVal := none
  anotado_na_agenda : Option PyVal := none
  status : Option PyVal := none
  resposta_do_colaborador : Option PyVal := none
  cliente_avisado : Option PyVal := none
  observacoes : Option PyVal := none
  observacao : Option PyVal := none
  deriving DecidableEq

/-- The `values` dict built by `_move_to_concluidas` in `app.py`, in
insertion order, with the `or` fallbacks between the source models. -/
def moveValues (rec : SrcRec) : List (List Char × Option PyVal) :=
  [("d".toList, pyOr rec.inicio_prazo rec.data),
   ("inicio_prazo".toList, rec.inicio_prazo),
   ("fim_prazo".toList, rec.fim_prazo),
   ("dias_restantes".toList, rec.dias_restantes),
   ("setor".toList, pyOr rec.setor rec.horario),
   ("cliente".toList, rec.cliente),
   ("processo".toList, pyOr rec.processo rec.numero_processo),
   ("para_ramon_e_adriana_despacharem".toList,
     pyOr rec.para_ramon_e_adriana_despacharem rec.anotado_na_agenda),
   ("status".toList, rec.status),
   ("resposta_do_colaborador".toList,
     pyOr rec.resposta_do_colaborador rec.cliente_avisado),
   ("observacoes".toList, pyOr rec.observacoes rec.observacao)]

/-- Projection of the values onto the columns the live `concluidas` schema
reports (`inspect(db.bind).get_columns("concluidas")`). -/
def projRow (cols : List (List Char)) (rec : SrcRec) :
    List (List Char × Option PyVal) :=
  (moveValues rec).filter (fun kv => cols.contains kv.1)

/-- Database state touched by `_move_to_concluidas` in `app.py`: the source
table of the record being completed and the `concluidas` archive. -/
structure AppDB where
  src : List SrcRec
  concluidas : List (List (List Char × Option PyVal))
  deriving DecidableEq

/-- Embeds `_move_to_concluidas` of `app.py`: looks up the source row by id,
builds the coalesced values, projects them onto the live `concluidas`
columns, inserts that row into `concluidas` and deletes the source row.
Insert and delete belong to the one transaction closed by the single
`db.commit()`; `ok` models that commit: on failure the session context
manager rolls both back, leaving the state unchanged. -/
def move_to_concluidas (cols : List (List Char)) (rec_id : Option Nat)
    (ok : Bool) (st : AppDB) : AppDB :=
  match rec_id with
  | none => st
  | some rid =>
      match st.src.find? (fun r => r.id == rid) with
      | none => st
      | some rec =>
          if ok then
            { src := st.src.filter (fun r => ! (r.id == rid)),
              concluidas := st.concluidas ++ [projRow cols rec] }
          else st

theorem filter_partition_length {α : Type} (p : α → Bool) (l : List α) :
    (l.filter (fun a => ! (p a))).length + (l.filter p).length = l.length := by
  induction l with
  | nil => rfl
  | cons a t ih =>
      cases h : p a <;> simp [List.filter_cons, h] <;> omega

/-- C8: marking a record done copies its populated fields (with the
documented fallbacks) projected onto the live `concluidas` columns into the
archive and deletes the source row in one committed operation: the archive
gains exactly the projected row (one more row), the source table loses
exactly one row, and when the commit fails neither table changes. -/
theorem move_to_concluidas_spec (cols : List (List Char)) (rid : Nat)
    (st : AppDB) (rec : SrcRec)
    (hfind : st.src.find? (fun r => r.id == rid) = some rec)
    (hunique : (st.src.filter (fun r => r.id == rid)).length = 1) :
    (move_to_concluidas cols (some rid) true st).concluidas =
      st.concluidas ++ [projRow cols rec] ∧
    (move_to_concluidas cols (some rid) true st).concluidas.length =
      st.concluidas.length + 1 ∧
    (move_to_concluidas cols (some rid) true st).src.length + 1 =
      st.src.length ∧
    move_to_concluidas cols (some rid) false st = st := by
  have hstep : move_to_concluidas cols (some rid) true st =
      { src := st.src.filter (fun r => ! (r.id == rid)),
        concluidas := st.concluidas ++ [projRow cols rec] } := by
    simp [move_to_concluidas, hfind]
  have hstepf : move_to_concluidas cols (some rid) false st = st := by
    simp [move_to_concluidas, hfind]
  have hpart : (st.src.filter (fun r => ! (r.id == rid))).length +
      (st.src.filter (fun r => r.id == rid)).length = st.src.length :=
    filter_partition_length _ _
  refine ⟨by rw [hstep], by rw [hstep]; simp, ?_, hstepf⟩
  rw [hstep]
  dsimp only
  omega

/-- Concrete source row for the C8 witness (an Agenda-style row: process
number only under `numero_processo`). -/
def c8rec : SrcRec :=
  { id := 7, cliente := some (.s ("Maria".toList)),
    numero_processo := some (.s ("123".toList)) }

/-- Concrete database state for the C8 witness. -/
def c8st : AppDB := { src := [c8rec], concluidas := [] }

/-- Concrete live `concluidas` columns for the C8 witness. -/
def c8cols : List (List Char) := ["d".toList, "cliente".toList, "processo".toList]

/-- Witness for C8 at concrete inputs. -/
theorem move_to_concluidas_spec_witness :
    (move_to_concluidas c8cols (some 7) true c8st).concluidas =
      c8st.concluidas ++ [projRow c8cols c8rec] ∧
    (move_to_concluidas c8cols (some 7) true c8st).concluidas.length =
      c8st.concluidas.length + 1 ∧
    (move_to_concluidas c8cols (some 7) true c8st).src.length + 1 =
      c8st.src.length ∧
    move_to_concluidas c8cols (some 7) false c8st = c8st :=
  move_to_concluidas_spec c8cols 7 c8st c8rec (by decide) (by decide)
